import Mathlib

/-!
Shallow embedding of the mosaic.js delayed event-queue processor
(`executables/inter_comm/stake_and_mint_processor.js`), together with the
Delay Queue contract of the design document and the stake-approval service
(`services/stake_and_mint/approveOpenStValueContract.js`).

External chain collaborators (contract-interact modules) are modelled as an
environment of fallible functions: a JavaScript `await f(...)` either yields
a value (`Except.ok`) or throws / rejects (`Except.error`).  The embedding
additionally records the list of chain calls the processor issues, in order,
so that claims about which calls happen can be stated directly.
-/

deriving instance DecidableEq for Except

namespace Mosaic

/-- JavaScript `String.prototype.toLowerCase`, written over the character
list so it evaluates by kernel reduction. -/
def toLowerStr (s : String) : String :=
  String.mk (s.data.map Char.toLower)

/-- The fields read from `eventObj.returnValues` by the processor. -/
structure EventObj where
  stakingIntentHash : String
  staker : String
  beneficiary : String
  uuid : String
  deriving DecidableEq

/-- Configuration the processor reads: `coreAddresses.getAddressForUser('staker')`,
`coreAddresses.getPassphraseForUser('staker')` and
`coreConstants.OST_OPENSTUTILITY_ST_PRIME_UUID`. -/
structure ProcessorConfig where
  stakerAddress : String
  stakerPassphrase : String
  stPrimeUuid : String
  deriving DecidableEq

/-- Modelled from the spec: the result values built by `lib/formatter/response`
(not under `src/`): `responseHelper.error(code, msg)` and
`responseHelper.successWithData({staking_intent_hash})` — the spec's tagged
`PipelineResult` (§3). -/
inductive PipelineResult where
  | success (staking_intent_hash : String)
  | error (code msg : String)
  deriving DecidableEq

/-- `String.prototype.equalsIgnoreCase` from the source: lowercase both sides
(the argument is coerced with `String(...)` first, an identity on strings)
and compare. -/
def equalsIgnoreCase (s compareWith : String) : Bool :=
  toLowerStr s == toLowerStr compareWith

/-- One chain call issued by the processor, with the arguments it was given.
The `claim` call also records the ERC20 address its branded-token handle was
constructed from. -/
inductive ChainCall where
  | processStaking (addr pass hash : String)
  | processMinting (addr pass hash : String)
  | registeredTokenProperty (uuid : String)
  | claim (erc20Address addr pass beneficiary : String)
  deriving DecidableEq

/-- `registeredOnUCResult.data` as read by the processor. -/
structure RegisteredTokenData where
  erc20Address : String
  deriving DecidableEq

/-- `registeredOnUCResult`: the processor reads `.data.erc20Address`. -/
structure RegisteredTokenResult where
  data : RegisteredTokenData
  deriving DecidableEq

/-- The external chain collaborators invoked by the processor.  Each is a
JavaScript async call: it either resolves (`Except.ok`) or rejects
(`Except.error`). -/
structure ChainEnv where
  processStaking : String → String → String → Except String Unit
  processMinting : String → String → String → Except String Unit
  registeredTokenProperty : String → Except String RegisteredTokenResult
  claim : String → String → String → String → Except String Unit

/-- The pipeline processor
(`StakeAndMintProcessorInterComm.prototype.processor`).  Returns the value
the async function's promise settles with — `Except.ok r` when it resolves
with the `PipelineResult` `r`, `Except.error e` when an awaited chain call
rejects and the rejection propagates (there is no try/catch in the source) —
paired with the ordered list of chain calls issued. -/
def processor (cfg : ProcessorConfig) (chain : ChainEnv) (eventObj : EventObj) :
    Except String PipelineResult × List ChainCall :=
  let stakingIntentHash := eventObj.stakingIntentHash
  let staker := eventObj.staker
  let beneficiary := eventObj.beneficiary
  let uuid := eventObj.uuid
  let stakerAddress := cfg.stakerAddress
  let stakerPassphrase := cfg.stakerPassphrase
  -- do not perform any action if the stake was not done using the internal address.
  if ¬ equalsIgnoreCase stakerAddress staker then
    (Except.ok (PipelineResult.error "e_ic_samp_1"
        "staker is not same as the internal staker account."), [])
  else
    let c₁ := ChainCall.processStaking stakerAddress stakerPassphrase stakingIntentHash
    match chain.processStaking stakerAddress stakerPassphrase stakingIntentHash with
    | Except.error e => (Except.error e, [c₁])
    | Except.ok _ =>
      let c₂ := ChainCall.processMinting stakerAddress stakerPassphrase stakingIntentHash
      match chain.processMinting stakerAddress stakerPassphrase stakingIntentHash with
      | Except.error e => (Except.error e, [c₁, c₂])
      | Except.ok _ =>
        if equalsIgnoreCase uuid cfg.stPrimeUuid then
          (Except.ok (PipelineResult.success stakingIntentHash), [c₁, c₂])
        else
          let c₃ := ChainCall.registeredTokenProperty uuid
          match chain.registeredTokenProperty uuid with
          | Except.error e => (Except.error e, [c₁, c₂, c₃])
          | Except.ok registeredOnUCResult =>
            let erc20 := registeredOnUCResult.data.erc20Address
            let c₄ := ChainCall.claim erc20 stakerAddress stakerPassphrase beneficiary
            match chain.claim erc20 stakerAddress stakerPassphrase beneficiary with
            | Except.error e => (Except.error e, [c₁, c₂, c₃, c₄])
            | Except.ok _ =>
              (Except.ok (PipelineResult.success stakingIntentHash), [c₁, c₂, c₃, c₄])

/-- Whether a chain call is the stage-1 (process staking) transaction. -/
def ChainCall.isStaking : ChainCall → Bool
  | ChainCall.processStaking _ _ _ => true
  | _ => false

/-- Whether a chain call is the stage-2 (process minting) transaction. -/
def ChainCall.isMinting : ChainCall → Bool
  | ChainCall.processMinting _ _ _ => true
  | _ => false

/-- Whether a chain call is the token-address lookup. -/
def ChainCall.isLookup : ChainCall → Bool
  | ChainCall.registeredTokenProperty _ => true
  | _ => false

/-- Whether a chain call is the branded-token claim. -/
def ChainCall.isClaimCall : ChainCall → Bool
  | ChainCall.claim _ _ _ _ => true
  | _ => false

/-- Bool-valued success test for a settled promise. -/
def settledOk {α : Type} : Except String α → Bool
  | Except.ok _ => true
  | Except.error _ => false

/-! ## Delay Queue

Modelled from the spec: the event queue manager
(`lib/web3/events/queue_manager`, used by the processor through
`addEditEventInQueue` but not itself under `src/`) is modelled from the
Delay Queue contract of §3/§4.2 of the design document. -/

/-- Modelled from the spec: the lifecycle states of a queued event (§3). -/
inductive EntryState where
  | Pending
  | Due
  | Processing
  | Done
  | Failed
  deriving DecidableEq

/-- A state is live when it is neither `Done` nor `Failed`. -/
def EntryState.isLive : EntryState → Bool
  | EntryState.Pending => true
  | EntryState.Due => true
  | EntryState.Processing => true
  | EntryState.Done => false
  | EntryState.Failed => false

/-- Modelled from the spec: a `QueuedEvent` entry (§3), reduced to the fields
the queue contract inspects. -/
structure QueueEntry where
  identityKey : String
  observedHeight : Nat
  state : EntryState
  deriving DecidableEq

/-- Modelled from the spec: the Delay Queue — a confirmation delta and the
entries in insertion order (§4.2). -/
structure DelayQueue where
  delayBlocks : Nat
  entries : List QueueEntry
  deriving DecidableEq

/-- Whether an entry is a live entry for `key`. -/
def liveForKey (key : String) (e : QueueEntry) : Bool :=
  e.identityKey == key && e.state.isLive

/-- Whether the queue holds a live entry for `key`. -/
def hasLiveEntry (q : DelayQueue) (key : String) : Bool :=
  q.entries.any (liveForKey key)

/-- Number of live entries for `key`. -/
def liveCount (key : String) (q : DelayQueue) : Nat :=
  (q.entries.filter (liveForKey key)).length

/-- Modelled from the spec: `enqueue(event)` — a no-op when a live entry for
the key exists, otherwise insert a fresh `Pending` entry at the observed
height (§4.2). -/
def enqueue (q : DelayQueue) (key : String) (observedHeight : Nat) : DelayQueue :=
  if hasLiveEntry q key then q
  else { q with entries := q.entries ++ [⟨key, observedHeight, EntryState.Pending⟩] }

/-- One entry's transition under `tick(currentHeight)`: a `Pending` entry
whose confirmation delta has elapsed becomes `Due`. -/
def tickEntry (delayBlocks currentHeight : Nat) (e : QueueEntry) : QueueEntry :=
  if e.state == EntryState.Pending && delayBlocks ≤ currentHeight - e.observedHeight
  then { e with state := EntryState.Due }
  else e

/-- Modelled from the spec: `tick(currentHeight)` (§4.2). -/
def tick (q : DelayQueue) (currentHeight : Nat) : DelayQueue :=
  { q with entries := q.entries.map (tickEntry q.delayBlocks currentHeight) }

/-- Transition of the entry list under `claim()`: the oldest `Due` entry
becomes `Processing`. -/
def claimFirstDue : List QueueEntry → List QueueEntry
  | [] => []
  | e :: rest =>
    if e.state == EntryState.Due then { e with state := EntryState.Processing } :: rest
    else e :: claimFirstDue rest

/-- Modelled from the spec: the state transition of `claim()` (§4.2). -/
def claimNextDue (q : DelayQueue) : DelayQueue :=
  { q with entries := claimFirstDue q.entries }

/-- One entry's transition under `complete(key, result)`. -/
def completeEntry (key : String) (succeeded : Bool) (e : QueueEntry) : QueueEntry :=
  if liveForKey key e
  then { e with state := if succeeded then EntryState.Done else EntryState.Failed }
  else e

/-- Modelled from the spec: `complete(identityKey, result)` — the live entry
for the key becomes `Done` or `Failed` per the result's tag (§4.2). -/
def complete (q : DelayQueue) (key : String) (succeeded : Bool) : DelayQueue :=
  { q with entries := q.entries.map (completeEntry key succeeded) }

/-- A queue operation, for quantifying over operation sequences. -/
inductive QueueOp where
  | enq (key : String) (observedHeight : Nat)
  | tickAt (currentHeight : Nat)
  | claimNext
  | completeAt (key : String) (succeeded : Bool)
  deriving DecidableEq

/-- Apply one queue operation. -/
def applyOp (q : DelayQueue) : QueueOp → DelayQueue
  | QueueOp.enq k h => enqueue q k h
  | QueueOp.tickAt h => tick q h
  | QueueOp.claimNext => claimNextDue q
  | QueueOp.completeAt k s => complete q k s

/-- Run a sequence of queue operations from the empty queue. -/
def runOps (delayBlocks : Nat) (ops : List QueueOp) : DelayQueue :=
  ops.foldl applyOp ⟨delayBlocks, []⟩

/-! ## Event Source Adapter wiring -/

/-- In-process state seen by the subscription handlers: the delay queue plus
the log sink. -/
structure SysState where
  queue : DelayQueue
  logs : List String
  deriving DecidableEq

/-- Modelled from the spec: `eventQueueManager.addEditEventInQueue(eventObj)`
(the queue manager is not under `src/`): derive the identity key from the
event's intent hash and enqueue at the current chain height (§3, §4.2). -/
def addEditEventInQueue (q : DelayQueue) (eventObj : EventObj) (currentHeight : Nat) :
    DelayQueue :=
  enqueue q eventObj.stakingIntentHash currentHeight

/-- `onEvent` from the source: forward the event object to the queue
manager's `addEditEventInQueue`. -/
def onEvent (eventObj : EventObj) : SysState → Nat → SysState :=
  fun s currentHeight =>
    { s with queue := addEditEventInQueue s.queue eventObj currentHeight }

/-- `onEventSubscriptionError` from the source: its body is exactly two
logger invocations (`logger.log`, `logger.error`). -/
def onEventSubscriptionError (error : String) : SysState → SysState :=
  fun s => { s with logs := s.logs ++ ["onEventSubscriptionError triggered", error] }

/-- The three callbacks attached by
`.on('error', onError).on('data', onData).on('changed', onChange)`. -/
structure EventSubscriptionHandlers where
  onError : String → SysState → SysState
  onData : EventObj → SysState → Nat → SysState
  onChanged : EventObj → SysState → Nat → SysState

/-- `listenToDesiredEvent(onError, onData, onChange)` from the source:
attach the three callbacks to the `StakingIntentConfirmed` stream. -/
def listenToDesiredEvent (onError : String → SysState → SysState)
    (onData onChange : EventObj → SysState → Nat → SysState) :
    EventSubscriptionHandlers :=
  { onError := onError, onData := onData, onChanged := onChange }

/-- `bindEvents` from the source: subscribe with `onEventSubscriptionError`
as the error callback and `onEvent` as BOTH the data and the changed
callback. -/
def bindEvents : EventSubscriptionHandlers :=
  listenToDesiredEvent onEventSubscriptionError onEvent onEvent

/-! ## Stake-approval service (`services/stake_and_mint/approveOpenStValueContract.js`) -/

/-- A call issued by the approval service to the Simple Token contract. -/
inductive StCall where
  | balanceOf (addr : String)
  | approve (senderAddr pass spenderAddr : String) (amount : Nat) (inAsync : Bool)
  deriving DecidableEq

/-- `result.data` of a `balanceOf` response, as read by `getSTBalance`. -/
structure BalanceData where
  balance : Nat
  deriving DecidableEq

/-- A `balanceOf` response: `getSTBalance` reads `result.data['balance']`. -/
structure BalanceResponse where
  data : BalanceData
  deriving DecidableEq

/-- The Simple Token contract-interact collaborators used by the service;
each call resolves (`Except.ok`) or rejects (`Except.error`). -/
structure SimpleTokenEnv where
  balanceOf : String → Except String BalanceResponse
  approve : String → String → String → Nat → Bool → Except String Unit

/-- Configuration the service reads: the staker user's address and
passphrase, and the `openSTValue` contract address. -/
structure ApproveConfig where
  stakerAddress : String
  stakerPassphrase : String
  openSTValueContractAddress : String
  deriving DecidableEq

/-- `getSTBalance(address)` from the source: call `balanceOf` and read
`result.data['balance']` as a big number (here `Nat`). -/
def getSTBalance (env : SimpleTokenEnv) (address : String) :
    Except String Nat × List StCall :=
  match env.balanceOf address with
  | Except.error e => (Except.error e, [StCall.balanceOf address])
  | Except.ok result => (Except.ok result.data.balance, [StCall.balanceOf address])

/-- `approve(stakerAddress, passphrase, toApproveAmount)` from the source:
approve the `openSTValue` contract for the given amount, with the async
flag set (do not wait for the transaction to be mined). -/
def approve (env : SimpleTokenEnv) (cfg : ApproveConfig)
    (stakerAddress passphrase : String) (toApproveAmount : Nat) :
    Except String Unit × List StCall :=
  (env.approve stakerAddress passphrase cfg.openSTValueContractAddress toApproveAmount true,
   [StCall.approve stakerAddress passphrase cfg.openSTValueContractAddress toApproveAmount true])

/-- `approveOpenStValueContract` from the source: fetch the staker's entire
Simple Token balance, then approve the `openSTValue` contract for exactly
that amount. -/
def approveOpenStValueContract (cfg : ApproveConfig) (env : SimpleTokenEnv) :
    Except String Unit × List StCall :=
  match getSTBalance env cfg.stakerAddress with
  | (Except.error e, t) => (Except.error e, t)
  | (Except.ok bigSTBalance, t) =>
    let r := approve env cfg cfg.stakerAddress cfg.stakerPassphrase bigSTBalance
    (r.fst, t ++ r.snd)

/-! ## Concrete instances used to witness the theorems -/

/-- A concrete processor configuration. -/
def cfgW : ProcessorConfig :=
  ⟨"0xAbCd", "passW", "0xPrimeUuid"⟩

/-- A chain environment in which every call resolves; the token lookup
returns the ERC20 address `0xE20`. -/
def chainOkW : ChainEnv :=
  ⟨fun _ _ _ => Except.ok (), fun _ _ _ => Except.ok (),
   fun _ => Except.ok ⟨⟨"0xE20"⟩⟩, fun _ _ _ _ => Except.ok ()⟩

/-- A chain environment in which the two stage transactions and the lookup
all reject. -/
def chainFailW : ChainEnv :=
  ⟨fun _ _ _ => Except.error "stake rejected", fun _ _ _ => Except.error "mint rejected",
   fun _ => Except.error "lookup rejected", fun _ _ _ _ => Except.ok ()⟩

/-- An event from the operator's account (case-varied) with a non-native
token uuid. -/
def evOtherW : EventObj :=
  ⟨"0xHash1", "0xaBcD", "0xBenef", "0xOtherUuid"⟩

/-- An event from the operator's account whose uuid is exactly the native
identifier. -/
def evNativeW : EventObj :=
  ⟨"0xHash1", "0xABCD", "0xBenef", "0xPrimeUuid"⟩

/-- An event whose uuid differs from the native identifier only in letter
case. -/
def evCaseUuidW : EventObj :=
  ⟨"0xHash1", "0xABCD", "0xBenef", "0xprimeuuid"⟩

/-- An event from a foreign staker account. -/
def evUnauthW : EventObj :=
  ⟨"0xHash1", "0xEEEE", "0xBenef", "0xOtherUuid"⟩

/-- A queue with one live (`Pending`) entry for key `k1`. -/
def queueW : DelayQueue :=
  ⟨6, [⟨"k1", 5, EntryState.Pending⟩]⟩

/-- A queue-operation sequence that re-enqueues `k1` in every live state. -/
def opsW : List QueueOp :=
  [QueueOp.enq "k1" 5, QueueOp.enq "k1" 7, QueueOp.tickAt 11, QueueOp.enq "k1" 11,
   QueueOp.claimNext, QueueOp.enq "k1" 12, QueueOp.completeAt "k1" true,
   QueueOp.enq "k1" 13]

/-- A concrete approval-service configuration. -/
def approveCfgW : ApproveConfig :=
  ⟨"0xAbCd", "passW", "0xOpenSTValue"⟩

/-- A Simple Token environment with a fixed balance for every account. -/
def stEnvW : SimpleTokenEnv :=
  ⟨fun _ => Except.ok ⟨⟨12345⟩⟩, fun _ _ _ _ _ => Except.ok ()⟩

/-- The per-key uniqueness invariant of the Delay Queue. -/
def QueueInv (q : DelayQueue) : Prop :=
  ∀ key, liveCount key q ≤ 1

end Mosaic

namespace Mosaic

/-- A settled promise that resolved did not reject. -/
theorem false_of_settledOk {α : Type} {x : Except String α} {v : α}
    (h : x = Except.ok v) (hf : settledOk x = false) : False := by
  rw [h] at hf
  exact Bool.noConfusion hf

/-- Mapping a function that preserves the predicate preserves the filtered
length. -/
theorem length_filter_map_eq {α : Type} (p : α → Bool) (f : α → α)
    (hf : ∀ e, p (f e) = p e) (l : List α) :
    ((l.map f).filter p).length = (l.filter p).length := by
  induction l with
  | nil => rfl
  | cons e t ih =>
    simp only [List.map_cons, List.filter_cons, hf e]
    cases hpe : p e <;> simp [hpe, ih]

/-- Mapping a function that only turns the predicate off cannot increase the
filtered length. -/
theorem length_filter_map_le {α : Type} (p : α → Bool) (f : α → α)
    (hf : ∀ e, p (f e) = true → p e = true) (l : List α) :
    ((l.map f).filter p).length ≤ (l.filter p).length := by
  induction l with
  | nil => exact Nat.le_refl _
  | cons e t ih =>
    simp only [List.map_cons, List.filter_cons]
    cases hfe : p (f e)
    · cases hpe : p e
      · simpa using ih
      · simp [hfe, hpe]
        exact Nat.le_succ_of_le ih
    · simp [hfe, hf e hfe]
      exact ih

/-- `tickEntry` preserves liveness-for-a-key: a `Pending` entry that becomes
`Due` stays live, everything else is unchanged. -/
theorem liveForKey_tickEntry (key : String) (d h : Nat) (e : QueueEntry) :
    liveForKey key (tickEntry d h e) = liveForKey key e := by
  unfold tickEntry
  split
  case isTrue hcond =>
    have hp : e.state = EntryState.Pending := by
      have := (Bool.and_eq_true _ _).mp hcond
      exact beq_iff_eq.mp this.1
    simp [liveForKey, hp, EntryState.isLive]
  case isFalse hcond => rfl

/-- `tick` does not change the number of live entries for any key. -/
theorem liveCount_tick (key : String) (q : DelayQueue) (h : Nat) :
    liveCount key (tick q h) = liveCount key q := by
  simp only [liveCount, tick]
  exact length_filter_map_eq _ _ (fun e => liveForKey_tickEntry key q.delayBlocks h e) q.entries

/-- `claimFirstDue` does not change the number of live entries for any key
(`Due → Processing` keeps the entry live). -/
theorem filter_claimFirstDue (key : String) (l : List QueueEntry) :
    ((claimFirstDue l).filter (liveForKey key)).length =
      (l.filter (liveForKey key)).length := by
  induction l with
  | nil => rfl
  | cons e t ih =>
    unfold claimFirstDue
    split
    case isTrue hDue =>
      have he : e.state = EntryState.Due := beq_iff_eq.mp hDue
      have hsame : liveForKey key { e with state := EntryState.Processing } = liveForKey key e := by
        simp [liveForKey, he, EntryState.isLive]
      simp only [List.filter_cons, hsame]
      cases hpe : liveForKey key e <;> simp [hpe]
    case isFalse hDue =>
      simp only [List.filter_cons]
      cases hpe : liveForKey key e <;> simp [hpe, ih]

/-- `claim`'s state transition does not change the number of live entries for
any key. -/
theorem liveCount_claimNextDue (key : String) (q : DelayQueue) :
    liveCount key (claimNextDue q) = liveCount key q := by
  simp only [liveCount, claimNextDue]
  exact filter_claimFirstDue key q.entries

/-- `completeEntry` never turns a non-live entry live. -/
theorem liveForKey_completeEntry (key k : String) (s : Bool) (e : QueueEntry) :
    liveForKey key (completeEntry k s e) = true → liveForKey key e = true := by
  unfold completeEntry
  split
  case isTrue hl =>
    intro hc
    cases s <;> simp [liveForKey, EntryState.isLive] at hc
  case isFalse hl => exact fun hc => hc

/-- `complete` cannot increase the number of live entries for any key. -/
theorem liveCount_complete_le (key k : String) (s : Bool) (q : DelayQueue) :
    liveCount key (complete q k s) ≤ liveCount key q := by
  simp only [liveCount, complete]
  exact length_filter_map_le _ _ (liveForKey_completeEntry key k s) q.entries

/-- `enqueue` preserves the ≤ 1 bound on live entries per key. -/
theorem liveCount_enqueue (key k : String) (h : Nat) (q : DelayQueue)
    (hq : liveCount key q ≤ 1) : liveCount key (enqueue q k h) ≤ 1 := by
  unfold enqueue
  split
  case isTrue hl => exact hq
  case isFalse hl =>
    simp only [liveCount, List.filter_append]
    by_cases hk : k = key
    · subst hk
      have h0 : q.entries.filter (liveForKey k) = [] := by
        rw [List.filter_eq_nil_iff]
        intro e he hc
        exact hl (List.any_eq_true.mpr ⟨e, he, hc⟩)
      simp [h0, liveForKey, EntryState.isLive]
    · have hne : liveForKey key (⟨k, h, EntryState.Pending⟩ : QueueEntry) = false := by
        simp [liveForKey]
        intro hc
        exact absurd hc hk
      simp [hne]
      exact hq

/-- Every queue operation preserves the per-key uniqueness invariant. -/
theorem applyOp_preserves (q : DelayQueue) (op : QueueOp) (hq : QueueInv q) :
    QueueInv (applyOp q op) := by
  cases op with
  | enq k h => exact fun key => liveCount_enqueue key k h q (hq key)
  | tickAt h => exact fun key => (liveCount_tick key q h).le.trans (hq key)
  | claimNext => exact fun key => (liveCount_claimNextDue key q).le.trans (hq key)
  | completeAt k s => exact fun key => (liveCount_complete_le key k s q).trans (hq key)

/-- Folding any operation sequence preserves the invariant. -/
theorem foldl_preserves (ops : List QueueOp) :
    ∀ q, QueueInv q → QueueInv (ops.foldl applyOp q) := by
  induction ops with
  | nil => exact fun q hq => hq
  | cons op t ih => exact fun q hq => ih _ (applyOp_preserves q op hq)

/-- C2: an event whose staker differs (case-insensitively) from the
configured operating account makes `process` return the `e_ic_samp_1`
error result immediately, with zero chain calls issued. -/
theorem processor_unauthorized_no_chain_calls (cfg : ProcessorConfig) (chain : ChainEnv)
    (ev : EventObj) (hAuth : equalsIgnoreCase cfg.stakerAddress ev.staker = false) :
    processor cfg chain ev =
      (Except.ok (PipelineResult.error "e_ic_samp_1"
        "staker is not same as the internal staker account."), []) := by
  simp [processor, hAuth]

/-- Witness for C2 at a concrete foreign-staker event. -/
theorem processor_unauthorized_no_chain_calls_witness :
    processor cfgW chainOkW evUnauthW =
      (Except.ok (PipelineResult.error "e_ic_samp_1"
        "staker is not same as the internal staker account."), []) :=
  processor_unauthorized_no_chain_calls cfgW chainOkW evUnauthW (by decide)

/-- C5: with an authorized staker and a uuid equal to the configured native
(ST Prime) identifier, a run whose two stage transactions resolve issues
exactly the two stage calls — no token lookup and no claim — and succeeds
with the event's intent hash as produced data. -/
theorem processor_native_no_claim (cfg : ProcessorConfig) (chain : ChainEnv) (ev : EventObj)
    (hAuth : equalsIgnoreCase cfg.stakerAddress ev.staker = true)
    (hUuid : ev.uuid = cfg.stPrimeUuid)
    (hS : chain.processStaking cfg.stakerAddress cfg.stakerPassphrase ev.stakingIntentHash =
      Except.ok ())
    (hM : chain.processMinting cfg.stakerAddress cfg.stakerPassphrase ev.stakingIntentHash =
      Except.ok ()) :
    processor cfg chain ev =
      (Except.ok (PipelineResult.success ev.stakingIntentHash),
       [ChainCall.processStaking cfg.stakerAddress cfg.stakerPassphrase ev.stakingIntentHash,
        ChainCall.processMinting cfg.stakerAddress cfg.stakerPassphrase ev.stakingIntentHash]) := by
  have hEq : equalsIgnoreCase ev.uuid cfg.stPrimeUuid = true := by
    rw [hUuid]
    simp [equalsIgnoreCase]
  simp [processor, hAuth, hS, hM, hEq]

/-- Witness for C5 at a concrete native-uuid event. -/
theorem processor_native_no_claim_witness :
    processor cfgW chainOkW evNativeW =
      (Except.ok (PipelineResult.success "0xHash1"),
       [ChainCall.processStaking "0xAbCd" "passW" "0xHash1",
        ChainCall.processMinting "0xAbCd" "passW" "0xHash1"]) :=
  processor_native_no_claim cfgW chainOkW evNativeW (by decide) rfl rfl rfl

/-- C9: the uuid comparison against the native identifier lowercases both
sides, so a uuid that differs from the native identifier only in letter
case takes the native (no lookup, no claim) branch. -/
theorem uuid_compare_case_insensitive (cfg : ProcessorConfig) (chain : ChainEnv) (ev : EventObj)
    (hAuth : equalsIgnoreCase cfg.stakerAddress ev.staker = true)
    (hUuid : toLowerStr ev.uuid = toLowerStr cfg.stPrimeUuid)
    (hS : chain.processStaking cfg.stakerAddress cfg.stakerPassphrase ev.stakingIntentHash =
      Except.ok ())
    (hM : chain.processMinting cfg.stakerAddress cfg.stakerPassphrase ev.stakingIntentHash =
      Except.ok ()) :
    processor cfg chain ev =
      (Except.ok (PipelineResult.success ev.stakingIntentHash),
       [ChainCall.processStaking cfg.stakerAddress cfg.stakerPassphrase ev.stakingIntentHash,
        ChainCall.processMinting cfg.stakerAddress cfg.stakerPassphrase ev.stakingIntentHash]) := by
  have hEq : equalsIgnoreCase ev.uuid cfg.stPrimeUuid = true := by
    simp [equalsIgnoreCase, hUuid]
  simp [processor, hAuth, hS, hM, hEq]

/-- Witness for C9: a uuid differing from the native identifier only in
case (and not literally equal to it) takes the no-claim branch. -/
theorem uuid_compare_case_insensitive_witness :
    evCaseUuidW.uuid ≠ cfgW.stPrimeUuid ∧
    processor cfgW chainOkW evCaseUuidW =
      (Except.ok (PipelineResult.success "0xHash1"),
       [ChainCall.processStaking "0xAbCd" "passW" "0xHash1",
        ChainCall.processMinting "0xAbCd" "passW" "0xHash1"]) :=
  ⟨by decide,
   uuid_compare_case_insensitive cfgW chainOkW evCaseUuidW (by decide) (by decide) rfl rfl⟩

/-- C4: with an authorized staker, both stages resolved and a non-native
uuid, `process` performs the token-address lookup for that uuid and invokes
claim exactly once, on a handle built from the looked-up ERC20 address, with
the beneficiary taken from the event payload. -/
theorem processor_nonnative_claims_once (cfg : ProcessorConfig) (chain : ChainEnv)
    (ev : EventObj) (res : RegisteredTokenResult)
    (hAuth : equalsIgnoreCase cfg.stakerAddress ev.staker = true)
    (hS : chain.processStaking cfg.stakerAddress cfg.stakerPassphrase ev.stakingIntentHash =
      Except.ok ())
    (hM : chain.processMinting cfg.stakerAddress cfg.stakerPassphrase ev.stakingIntentHash =
      Except.ok ())
    (hU : equalsIgnoreCase ev.uuid cfg.stPrimeUuid = false)
    (hL : chain.registeredTokenProperty ev.uuid = Except.ok res) :
    (processor cfg chain ev).snd.filter (fun c => c.isLookup) =
      [ChainCall.registeredTokenProperty ev.uuid] ∧
    (processor cfg chain ev).snd.filter (fun c => c.isClaimCall) =
      [ChainCall.claim res.data.erc20Address cfg.stakerAddress cfg.stakerPassphrase
        ev.beneficiary] := by
  cases hC : chain.claim res.data.erc20Address cfg.stakerAddress cfg.stakerPassphrase
      ev.beneficiary <;>
    simp [processor, hAuth, hS, hM, hU, hL, hC, ChainCall.isLookup, ChainCall.isClaimCall,
      ChainCall.isStaking, ChainCall.isMinting, List.filter]

/-- Witness for C4 at a concrete non-native event. -/
theorem processor_nonnative_claims_once_witness :
    (processor cfgW chainOkW evOtherW).snd.filter (fun c => c.isLookup) =
      [ChainCall.registeredTokenProperty "0xOtherUuid"] ∧
    (processor cfgW chainOkW evOtherW).snd.filter (fun c => c.isClaimCall) =
      [ChainCall.claim "0xE20" "0xAbCd" "passW" "0xBenef"] :=
  processor_nonnative_claims_once cfgW chainOkW evOtherW ⟨⟨"0xE20"⟩⟩
    (by decide) rfl rfl (by decide) rfl

/-- C1 (amended): `process` settles with a `PipelineResult` value whenever
either the authorization check fails or every chain call it awaits
resolves; a rejected chain call instead propagates out of `process` as a
rejection — see the counterexample theorem. -/
theorem processor_returns_result_when_calls_resolve (cfg : ProcessorConfig)
    (chain : ChainEnv) (ev : EventObj)
    (h1 : ∀ a p h, settledOk (chain.processStaking a p h) = true)
    (h2 : ∀ a p h, settledOk (chain.processMinting a p h) = true)
    (h3 : ∀ u, settledOk (chain.registeredTokenProperty u) = true)
    (h4 : ∀ e a p b, settledOk (chain.claim e a p b) = true) :
    ∃ r, (processor cfg chain ev).fst = Except.ok r := by
  cases hAuth : equalsIgnoreCase cfg.stakerAddress ev.staker
  · exact ⟨PipelineResult.error "e_ic_samp_1"
      "staker is not same as the internal staker account.", by simp [processor, hAuth]⟩
  · cases hS : chain.processStaking cfg.stakerAddress cfg.stakerPassphrase ev.stakingIntentHash
      with
    | error e =>
      have := h1 cfg.stakerAddress cfg.stakerPassphrase ev.stakingIntentHash
      rw [hS] at this
      exact absurd this (by simp [settledOk])
    | ok u =>
      cases hM : chain.processMinting cfg.stakerAddress cfg.stakerPassphrase
          ev.stakingIntentHash with
      | error e =>
        have := h2 cfg.stakerAddress cfg.stakerPassphrase ev.stakingIntentHash
        rw [hM] at this
        exact absurd this (by simp [settledOk])
      | ok v =>
        cases hUuid : equalsIgnoreCase ev.uuid cfg.stPrimeUuid
        · cases hL : chain.registeredTokenProperty ev.uuid with
          | error e =>
            have := h3 ev.uuid
            rw [hL] at this
            exact absurd this (by simp [settledOk])
          | ok res =>
            cases hC : chain.claim res.data.erc20Address cfg.stakerAddress
                cfg.stakerPassphrase ev.beneficiary with
            | error e =>
              have := h4 res.data.erc20Address cfg.stakerAddress cfg.stakerPassphrase
                ev.beneficiary
              rw [hC] at this
              exact absurd this (by simp [settledOk])
            | ok w =>
              exact ⟨PipelineResult.success ev.stakingIntentHash,
                by simp [processor, hAuth, hS, hM, hUuid, hL, hC]⟩
        · exact ⟨PipelineResult.success ev.stakingIntentHash,
            by simp [processor, hAuth, hS, hM, hUuid]⟩

/-- Witness for the amended C1 in an all-resolving chain environment. -/
theorem processor_returns_result_when_calls_resolve_witness :
    ∃ r, (processor cfgW chainOkW evOtherW).fst = Except.ok r :=
  processor_returns_result_when_calls_resolve cfgW chainOkW evOtherW
    (fun _ _ _ => rfl) (fun _ _ _ => rfl) (fun _ => rfl) (fun _ _ _ _ => rfl)

/-- C1 counterexample: with a stage-1 call that rejects, `process` does not
settle with a `PipelineResult` — the rejection escapes the pipeline
boundary (there is no try/catch in the source), refuting the claim that a
`PipelineResult` is always produced. -/
theorem processor_can_reject :
    (processor cfgW chainFailW evOtherW).fst = Except.error "stake rejected" ∧
    ¬ ∀ (cfg : ProcessorConfig) (chain : ChainEnv) (ev : EventObj),
        ∃ r, (processor cfg chain ev).fst = Except.ok r := by
  constructor
  · rfl
  · intro h
    obtain ⟨r, hr⟩ := h cfgW chainFailW evOtherW
    rw [show (processor cfgW chainFailW evOtherW).fst = Except.error "stake rejected" from rfl]
      at hr
    exact Except.noConfusion hr

/-- C3: strict short-circuit ordering — if the stage-1 call rejects, no
stage-2, lookup or claim call is ever issued; if the stage-2 call rejects,
no lookup or claim call is issued; if the lookup rejects, no claim call is
issued. -/
theorem processor_short_circuit (cfg : ProcessorConfig) (chain : ChainEnv) (ev : EventObj) :
    (settledOk (chain.processStaking cfg.stakerAddress cfg.stakerPassphrase
        ev.stakingIntentHash) = false →
      (processor cfg chain ev).snd.any (fun c => c.isMinting || c.isLookup || c.isClaimCall) =
        false) ∧
    (settledOk (chain.processMinting cfg.stakerAddress cfg.stakerPassphrase
        ev.stakingIntentHash) = false →
      (processor cfg chain ev).snd.any (fun c => c.isLookup || c.isClaimCall) = false) ∧
    (settledOk (chain.registeredTokenProperty ev.uuid) = false →
      (processor cfg chain ev).snd.any (fun c => c.isClaimCall) = false) := by
  cases hAuth : equalsIgnoreCase cfg.stakerAddress ev.staker
  · refine ⟨fun _ => ?_, fun _ => ?_, fun _ => ?_⟩ <;> simp [processor, hAuth]
  · cases hS : chain.processStaking cfg.stakerAddress cfg.stakerPassphrase ev.stakingIntentHash
      with
    | error e =>
      refine ⟨fun _ => ?_, fun _ => ?_, fun _ => ?_⟩ <;>
        simp [processor, hAuth, hS, ChainCall.isStaking, ChainCall.isMinting,
          ChainCall.isLookup, ChainCall.isClaimCall]
    | ok u =>
      cases hM : chain.processMinting cfg.stakerAddress cfg.stakerPassphrase
          ev.stakingIntentHash with
      | error e =>
        refine ⟨fun hf => (false_of_settledOk rfl hf).elim, fun _ => ?_, fun _ => ?_⟩ <;>
          simp [processor, hAuth, hS, hM, ChainCall.isStaking, ChainCall.isMinting,
            ChainCall.isLookup, ChainCall.isClaimCall]
      | ok v =>
        cases hUuid : equalsIgnoreCase ev.uuid cfg.stPrimeUuid
        · cases hL : chain.registeredTokenProperty ev.uuid with
          | error e =>
            refine ⟨fun hf => (false_of_settledOk rfl hf).elim,
              fun hf => (false_of_settledOk rfl hf).elim, fun _ => ?_⟩
            simp [processor, hAuth, hS, hM, hUuid, hL, ChainCall.isStaking,
              ChainCall.isMinting, ChainCall.isLookup, ChainCall.isClaimCall]
          | ok res =>
            exact ⟨fun hf => (false_of_settledOk rfl hf).elim,
              fun hf => (false_of_settledOk rfl hf).elim,
              fun hf => (false_of_settledOk rfl hf).elim⟩
        · refine ⟨fun hf => (false_of_settledOk rfl hf).elim,
            fun hf => (false_of_settledOk rfl hf).elim, fun _ => ?_⟩
          simp [processor, hAuth, hS, hM, hUuid, ChainCall.isStaking, ChainCall.isMinting,
            ChainCall.isLookup, ChainCall.isClaimCall]

/-- Witness for C3 in an environment whose stage and lookup calls all
reject: no downstream call appears in the trace. -/
theorem processor_short_circuit_witness :
    (processor cfgW chainFailW evOtherW).snd.any
        (fun c => c.isMinting || c.isLookup || c.isClaimCall) = false ∧
    (processor cfgW chainFailW evOtherW).snd.any (fun c => c.isLookup || c.isClaimCall) =
        false ∧
    (processor cfgW chainFailW evOtherW).snd.any (fun c => c.isClaimCall) = false :=
  ⟨(processor_short_circuit cfgW chainFailW evOtherW).1 rfl,
   (processor_short_circuit cfgW chainFailW evOtherW).2.1 rfl,
   (processor_short_circuit cfgW chainFailW evOtherW).2.2 rfl⟩

/-- C6: for any sequence of enqueue/tick/claim/complete operations the queue
holds at most one live entry per identity key, and an enqueue for a key
that already has a live entry leaves the queue unchanged. -/
theorem queue_live_entry_unique :
    (∀ (delayBlocks : Nat) (ops : List QueueOp) (key : String),
       liveCount key (runOps delayBlocks ops) ≤ 1) ∧
    (∀ (q : DelayQueue) (key : String) (h : Nat),
       hasLiveEntry q key = true → enqueue q key h = q) := by
  constructor
  · intro d ops key
    exact foldl_preserves ops ⟨d, []⟩ (fun k => by simp [liveCount]) key
  · intro q key h hLive
    simp [enqueue, hLive]

/-- Witness for C6: a concrete operation sequence that re-enqueues the same
key in every live state, and a concrete no-op re-enqueue. -/
theorem queue_live_entry_unique_witness :
    liveCount "k1" (runOps 6 opsW) ≤ 1 ∧ enqueue queueW "k1" 9 = queueW :=
  ⟨queue_live_entry_unique.1 6 opsW "k1",
   queue_live_entry_unique.2 queueW "k1" 9 (by decide)⟩

/-- C7: `bindEvents` wires the reorg ('changed') callback to the very same
ingestion handler as the 'data' callback, so both enqueue the event (keyed
by its intent hash) identically. -/
theorem onChanged_eq_onData :
    bindEvents.onChanged = bindEvents.onData ∧
    ∀ (ev : EventObj) (s : SysState) (h : Nat),
      bindEvents.onChanged ev s h =
        { s with queue := enqueue s.queue ev.stakingIntentHash h } :=
  ⟨rfl, fun _ _ _ => rfl⟩

/-- C8: the subscription error handler only logs — the queue is untouched
and ingesting a subsequent event behaves exactly as without the error. -/
theorem subscription_error_only_logs :
    ∀ (error : String) (s : SysState),
      (onEventSubscriptionError error s).queue = s.queue ∧
      (onEventSubscriptionError error s).logs =
        s.logs ++ ["onEventSubscriptionError triggered", error] ∧
      ∀ (ev : EventObj) (h : Nat),
        (onEvent ev (onEventSubscriptionError error s) h).queue = (onEvent ev s h).queue :=
  fun _ _ => ⟨rfl, rfl, fun _ _ => rfl⟩

/-- C10: the approval service approves the `openSTValue` contract for
exactly the staker's entire Simple Token balance as returned by `balanceOf`,
with the async (do-not-wait-for-mining) flag set. -/
theorem approve_amount_is_full_balance (cfg : ApproveConfig) (env : SimpleTokenEnv)
    (resp : BalanceResponse)
    (hB : env.balanceOf cfg.stakerAddress = Except.ok resp) :
    approveOpenStValueContract cfg env =
      (env.approve cfg.stakerAddress cfg.stakerPassphrase cfg.openSTValueContractAddress
         resp.data.balance true,
       [StCall.balanceOf cfg.stakerAddress,
        StCall.approve cfg.stakerAddress cfg.stakerPassphrase cfg.openSTValueContractAddress
          resp.data.balance true]) := by
  simp [approveOpenStValueContract, getSTBalance, approve, hB]

/-- Witness for C10 at a concrete balance of 12345. -/
theorem approve_amount_is_full_balance_witness :
    approveOpenStValueContract approveCfgW stEnvW =
      (Except.ok (),
       [StCall.balanceOf "0xAbCd",
        StCall.approve "0xAbCd" "passW" "0xOpenSTValue" 12345 true]) :=
  approve_amount_is_full_balance approveCfgW stEnvW ⟨⟨12345⟩⟩ rfl

end Mosaic
